import Mathlib

/-!
A shallow embedding of the `lasersell-tel` log-shipping pipeline
(`src/layer.rs`, `src/shipper.rs`, `src/lib.rs`) together with proofs about
its batching state machine, event normalisation, span-state store and
timestamp formatting.

JSON values (`serde_json::Value`) are modelled by the inductive `Json`;
numbers are modelled by `Int` (the claims under study only ever touch
integer-valued fields; `f64` payloads play no role in any of them).
`serde_json::Map` keeps at most one entry per key; it is modelled as an
association list together with key-based `mapInsert` / `mapRemove` /
`mapExtend` operations that mirror `BTreeMap::insert` / `remove` / `extend`.
-/

inductive Json where
  | null : Json
  | bool : Bool → Json
  | num : Int → Json
  | str : String → Json
  | arr : List Json → Json
  | obj : List (String × Json) → Json

abbrev Jmap := List (String × Json)

/-- Key lookup in a JSON object map (`BTreeMap::get`). -/
def lookupKey : Jmap → String → Option Json
  | [], _ => none
  | (k', v) :: rest, k => if k' = k then some v else lookupKey rest k

/-- Key insertion (`BTreeMap::insert`): overwrite the entry holding the key
if present, otherwise add a new entry. -/
def mapInsert : Jmap → String → Json → Jmap
  | [], k, v => [(k, v)]
  | (k', v') :: rest, k, v =>
      if k' = k then (k, v) :: rest else (k', v') :: mapInsert rest k v

/-- Key removal (`BTreeMap::remove`); keys are unique in a `BTreeMap`, so
dropping every entry holding the key is the same operation. -/
def mapRemove (m : Jmap) (k : String) : Jmap :=
  m.filter (fun e => e.1 ≠ k)

/-- Merge of a second map into a first (`BTreeMap::extend`): insert the new
entries one by one, so a new entry overwrites an old one on key collision. -/
def mapExtend (m news : Jmap) : Jmap :=
  news.foldl (fun acc e => mapInsert acc e.1 e.2) m

/-- Fields collected by `JsonVisitor`: each `record_*` callback does
`self.fields.insert(field.name(), value)`; `recorded` lists the callbacks
in the order the framework issues them. -/
def visitorFields (recorded : List (String × Json)) : Jmap :=
  recorded.foldl (fun acc e => mapInsert acc e.1 e.2) []

/-- Per-span JSON data stored in the registry (`struct SpanData`). -/
structure SpanData where
  name : String
  fields : Jmap

/-- Span-state store: the registry's per-span extension slots, keyed by the
opaque span id. -/
abbrev SpanStore := List (Nat × SpanData)

def storeLookup : SpanStore → Nat → Option SpanData
  | [], _ => none
  | (i, d) :: rest, id => if i = id then some d else storeLookup rest id

def storeUpdate : SpanStore → Nat → SpanData → SpanStore
  | [], _, _ => []
  | (i, d) :: rest, id, nd =>
      if i = id then (i, nd) :: rest else (i, d) :: storeUpdate rest id nd

/-- Layer::on_new_span: collect the declared fields with a fresh visitor and
store `SpanData { name, fields }` in the span's extension slot. -/
def on_new_span (store : SpanStore) (id : Nat) (name : String)
    (recorded : List (String × Json)) : SpanStore :=
  storeUpdate store id { name := name, fields := visitorFields recorded }

/-- Layer::on_record: if the span id resolves to stored `SpanData`, collect
the newly recorded values with a fresh visitor and `extend` the stored field
map with them; otherwise do nothing. -/
def on_record (store : SpanStore) (id : Nat)
    (recorded : List (String × Json)) : SpanStore :=
  match storeLookup store id with
  | some data =>
      storeUpdate store id
        { data with fields := mapExtend data.fields (visitorFields recorded) }
  | none => store

/-- Event metadata (`tracing::Metadata`): the pieces `on_event` reads. -/
structure EventMeta where
  level : String
  target : String

/-- Layer::on_event, the event normaliser: collect the event fields, pull
out `message`, build the optional innermost-span object, and assemble the
log-record object that is sent through the channel.  `sd` is the innermost
active span's stored `SpanData`, if any (`ctx.event_span(..)` plus
`extensions().get::<SpanData>()`); `now` is the `chrono_now_iso()` result. -/
def on_event (meta : EventMeta) (recorded : List (String × Json))
    (sd : Option SpanData) (now : String) : Jmap :=
  let vf := visitorFields recorded
  let message := (lookupKey vf "message").getD (Json.str "")
  let vf := mapRemove vf "message"
  let spanJson := sd.map (fun data =>
    Json.obj (mapExtend (mapInsert [] "name" (Json.str data.name)) data.fields))
  let obj := mapInsert [] "dt" (Json.str now)
  let obj := mapInsert obj "level" (Json.str meta.level)
  let obj := mapInsert obj "message" message
  let obj := mapInsert obj "target" (Json.str meta.target)
  let obj := if vf.isEmpty then obj else mapInsert obj "fields" (Json.obj vf)
  match spanJson with
  | some s => mapInsert obj "span" s
  | none => obj

/-! ### Shipper worker (`src/shipper.rs`) -/

/-- Outcome of one `client.post(..).send().await` call. -/
inductive SendResult where
  | ok : Nat → SendResult
  | err : String → SendResult

/-- StatusCode::is_success — a 2xx status. -/
def statusIsSuccess (s : Nat) : Bool := 200 ≤ s && s < 300

/-- Result of one `flush` call: what was handed to the HTTP client, the
batch the worker keeps afterwards, and the diagnostic lines printed. -/
structure FlushOut where
  sent : List Jmap
  batch : List Jmap
  diagnostics : List String

/-- The `flush` function: `batch.drain(..)` empties the batch and hands its
whole contents to one POST; a non-2xx status or a transport error is only
reported on stderr. -/
def flush (batch : List Jmap) (r : SendResult) : FlushOut :=
  { sent := batch
    batch := []
    diagnostics :=
      match r with
      | SendResult.ok status =>
          if statusIsSuccess status then []
          else ["[lasersell-tel] Better Stack returned HTTP " ++ toString status]
      | SendResult.err e =>
          ["[lasersell-tel] failed to ship logs to Better Stack: " ++ e] }

/-- The drain loop shared by the `recv` arm and the shutdown arm of
`run_shipper`: push each record onto the batch, flushing as soon as the
batch length reaches `batch_size`.  Returns the batches flushed (in call
order) and the final unflushed batch. -/
def processAcc (bs : Nat) : List Jmap → List Jmap → List (List Jmap) × List Jmap
  | batch, [] => ([], batch)
  | batch, r :: rest =>
      let b := batch ++ [r]
      if bs ≤ b.length then
        let p := processAcc bs [] rest
        (b :: p.1, p.2)
      else
        processAcc bs b rest

/-- One ready arm of the `tokio::select!` in `run_shipper`, the worker's
only suspension point.  `shutdown` carries the records already buffered in
the channel (everything `try_recv` will yield); `recv` carries one record
handed over by `rx.recv()`. -/
inductive WorkerInput where
  | recv : Jmap → WorkerInput
  | timerTick : WorkerInput
  | shutdown : List Jmap → WorkerInput
  | channelClosed : WorkerInput

/-- The `run_shipper` event loop, abstracted over the sequence of select
arms that fire; returns the flushed batches in call order.  The shutdown
and channel-closed arms `return`, so later inputs are ignored. -/
def runWorker (bs : Nat) : List Jmap → List WorkerInput → List (List Jmap)
  | _, [] => []
  | batch, WorkerInput.recv v :: rest =>
      let b := batch ++ [v]
      if bs ≤ b.length then b :: runWorker bs [] rest
      else runWorker bs b rest
  | batch, WorkerInput.timerTick :: rest =>
      if batch.isEmpty then runWorker bs batch rest
      else batch :: runWorker bs [] rest
  | batch, WorkerInput.shutdown buffered :: _ =>
      let p := processAcc bs batch buffered
      if p.2.isEmpty then p.1 else p.1 ++ [p.2]
  | batch, WorkerInput.channelClosed :: _ =>
      if batch.isEmpty then [] else [batch]

/-! ### Shipper worker lemmas -/

lemma ceil_div_char (bs n : Nat) (hbs : 0 < bs) :
    (n + bs - 1) / bs = n / bs + if n % bs = 0 then 0 else 1 := by
  obtain ⟨q, r, hr, rfl⟩ : ∃ q r, r < bs ∧ n = bs * q + r :=
    ⟨n / bs, n % bs, Nat.mod_lt _ hbs, (Nat.div_add_mod n bs).symm⟩
  have hmod : (bs * q + r) % bs = r := by
    rw [Nat.mul_add_mod]; exact Nat.mod_eq_of_lt hr
  have hdiv : (bs * q + r) / bs = q := by
    rw [Nat.mul_add_div hbs, Nat.div_eq_of_lt hr, Nat.add_zero]
  rcases Nat.eq_zero_or_pos r with hr0 | hr1
  · subst hr0
    have h1 : bs * q + 0 + bs - 1 = bs * q + (bs - 1) := by omega
    rw [h1, Nat.mul_add_div hbs, Nat.div_eq_of_lt (by omega), hmod, hdiv]
    simp
  · have h2 : bs * (q + 1) = bs * q + bs := by ring
    have h1 : bs * q + r + bs - 1 = bs * (q + 1) + (r - 1) := by omega
    rw [h1, Nat.mul_add_div hbs, Nat.div_eq_of_lt (by omega), hmod, hdiv]
    rw [if_neg (by omega)]

lemma processAcc_spec (bs : Nat) (hbs : 0 < bs) :
    ∀ (records batch : List Jmap), batch.length < bs →
      (∀ d ∈ (processAcc bs batch records).1, d.length = bs) ∧
      ((processAcc bs batch records).1.flatten ++ (processAcc bs batch records).2
          = batch ++ records) ∧
      (processAcc bs batch records).1.length
          = (batch.length + records.length) / bs ∧
      (processAcc bs batch records).2.length
          = (batch.length + records.length) % bs := by
  intro records
  induction records with
  | nil =>
    intro batch h
    simp [processAcc, Nat.div_eq_of_lt h, Nat.mod_eq_of_lt h]
  | cons r rest ih =>
    intro batch h
    simp only [processAcc]
    have hba : (batch ++ [r]).length = batch.length + 1 := by simp
    by_cases hb : bs ≤ (batch ++ [r]).length
    · have hlen : (batch ++ [r]).length = bs := by omega
      obtain ⟨ih1, ih2, ih3, ih4⟩ := ih [] hbs
      rw [if_pos hb]
      refine ⟨?_, ?_, ?_, ?_⟩
      · intro d hd
        rcases List.mem_cons.mp hd with h1 | h1
        · subst h1; exact hlen
        · exact ih1 d h1
      · simp only [List.flatten_cons, List.append_assoc, ih2]
        simp
      · simp only [List.length_cons, ih3, List.length_nil, Nat.zero_add,
          List.length_append, List.length_singleton] at *
        have : batch.length + (rest.length + 1) = rest.length + bs := by omega
        rw [this, Nat.add_div_right _ hbs, Nat.add_comm]
      · simp only [ih4, List.length_nil, Nat.zero_add, List.length_cons]
        have : batch.length + (rest.length + 1) = rest.length + bs := by omega
        rw [this, Nat.add_mod_right]
    · have hlen : (batch ++ [r]).length < bs := Nat.lt_of_not_le hb
      obtain ⟨ih1, ih2, ih3, ih4⟩ := ih (batch ++ [r]) hlen
      rw [if_neg hb]
      have h5 : (batch ++ [r]).length + rest.length
          = batch.length + (r :: rest).length := by
        simp only [List.length_append, List.length_singleton, List.length_cons,
          List.length_nil]
        omega
      refine ⟨ih1, ?_, ?_, ?_⟩
      · rw [ih2]; simp
      · rw [ih3, h5]
      · rw [ih4, h5]

lemma runWorker_recvs (bs : Nat) :
    ∀ (records : List Jmap) (batch : List Jmap) (rest : List WorkerInput),
      runWorker bs batch (records.map WorkerInput.recv ++ rest)
        = (processAcc bs batch records).1
            ++ runWorker bs (processAcc bs batch records).2 rest := by
  intro records
  induction records with
  | nil => intro batch rest; simp [processAcc]
  | cons r rs ih =>
    intro batch rest
    simp only [List.map_cons, List.cons_append, runWorker, processAcc,
      List.append_eq]
    by_cases hb : bs ≤ (batch ++ [r]).length
    · simp only [if_pos hb, ih]
      simp
    · simp only [if_neg hb, ih]

lemma runWorker_final (bs : Nat) (batch : List Jmap) (fin : WorkerInput)
    (hfin : fin = WorkerInput.timerTick ∨ fin = WorkerInput.shutdown []) :
    runWorker bs batch [fin] = if batch.isEmpty then [] else [batch] := by
  rcases hfin with h | h <;> subst h
  · by_cases hb : batch.isEmpty <;> simp [runWorker, hb]
  · by_cases hb : batch.isEmpty <;> simp [runWorker, processAcc, hb]

lemma runWorker_complete (bs : Nat) (hbs : 0 < bs) (records : List Jmap)
    (fin : WorkerInput)
    (hfin : fin = WorkerInput.timerTick ∨ fin = WorkerInput.shutdown []) :
    ((runWorker bs [] (records.map WorkerInput.recv ++ [fin])).length
        = (records.length + bs - 1) / bs) ∧
    (∀ d ∈ runWorker bs [] (records.map WorkerInput.recv ++ [fin]),
        d.length ≤ bs) ∧
    (runWorker bs [] (records.map WorkerInput.recv ++ [fin])).flatten
        = records := by
  obtain ⟨h1, h2, h3, h4⟩ := processAcc_spec bs hbs records [] hbs
  rw [runWorker_recvs bs records [] [fin], runWorker_final bs _ fin hfin]
  simp only [List.length_nil, Nat.zero_add] at h2 h3 h4
  rw [ceil_div_char bs records.length hbs]
  by_cases hrem : (processAcc bs [] records).2.isEmpty
  · have hrem' : (processAcc bs [] records).2 = [] := List.isEmpty_iff.mp hrem
    have hmod : records.length % bs = 0 := by rw [← h4, hrem']; rfl
    rw [if_pos hrem]
    refine ⟨?_, ?_, ?_⟩
    · simp [h3, hmod]
    · intro d hd
      simp only [List.append_nil] at hd
      exact Nat.le_of_eq (h1 d hd)
    · rw [hrem'] at h2; simpa using h2
  · have hrem' : (processAcc bs [] records).2 ≠ [] := by
      simpa [List.isEmpty_iff] using hrem
    have hmod : records.length % bs ≠ 0 := by
      rw [← h4]
      intro hc
      exact hrem' (List.eq_nil_of_length_eq_zero hc)
    rw [if_neg hrem]
    refine ⟨?_, ?_, ?_⟩
    · simp [h3, hmod]
    · intro d hd
      rcases List.mem_append.mp hd with hmem | hmem
      · exact Nat.le_of_eq (h1 d hmem)
      · have : d = (processAcc bs [] records).2 := by simpa using hmem
        subst this
        rw [h4]
        exact Nat.le_of_lt (Nat.mod_lt _ hbs)
    · rw [List.flatten_append]
      simpa using h2

/-- C1: for every sequence of `N ≥ batch_size ≥ 1` records received by the
worker, once the remainder is flushed by a timer tick or by shutdown, the
worker issues exactly `⌈N / batch_size⌉` delivery calls, each carrying at
most `batch_size` records, and the concatenation of the delivered batches
in call order equals the received sequence in dequeue order. -/
theorem shipper_batching_C1 (bs : Nat) (records : List Jmap)
    (hbs : 1 ≤ bs) (hN : bs ≤ records.length) :
    ((runWorker bs [] (records.map WorkerInput.recv
          ++ [WorkerInput.timerTick])).length = (records.length + bs - 1) / bs
      ∧ (∀ d ∈ runWorker bs [] (records.map WorkerInput.recv
          ++ [WorkerInput.timerTick]), d.length ≤ bs)
      ∧ (runWorker bs [] (records.map WorkerInput.recv
          ++ [WorkerInput.timerTick])).flatten = records)
    ∧ ((runWorker bs [] (records.map WorkerInput.recv
          ++ [WorkerInput.shutdown []])).length = (records.length + bs - 1) / bs
      ∧ (∀ d ∈ runWorker bs [] (records.map WorkerInput.recv
          ++ [WorkerInput.shutdown []]), d.length ≤ bs)
      ∧ (runWorker bs [] (records.map WorkerInput.recv
          ++ [WorkerInput.shutdown []])).flatten = records) :=
  ⟨runWorker_complete bs hbs records WorkerInput.timerTick (Or.inl rfl),
   runWorker_complete bs hbs records (WorkerInput.shutdown []) (Or.inr rfl)⟩

theorem shipper_batching_C1_witness :
    1 ≤ 2 ∧ 2 ≤ ([[("a", Json.num 1)], [("b", Json.num 2)],
        [("c", Json.num 3)]] : List Jmap).length ∧
    ((runWorker 2 [] (([[("a", Json.num 1)], [("b", Json.num 2)],
          [("c", Json.num 3)]] : List Jmap).map WorkerInput.recv
          ++ [WorkerInput.timerTick])).length = (3 + 2 - 1) / 2
      ∧ (∀ d ∈ runWorker 2 [] (([[("a", Json.num 1)], [("b", Json.num 2)],
          [("c", Json.num 3)]] : List Jmap).map WorkerInput.recv
          ++ [WorkerInput.timerTick]), d.length ≤ 2)
      ∧ (runWorker 2 [] (([[("a", Json.num 1)], [("b", Json.num 2)],
          [("c", Json.num 3)]] : List Jmap).map WorkerInput.recv
          ++ [WorkerInput.timerTick])).flatten
          = [[("a", Json.num 1)], [("b", Json.num 2)], [("c", Json.num 3)]])
    ∧ ((runWorker 2 [] (([[("a", Json.num 1)], [("b", Json.num 2)],
          [("c", Json.num 3)]] : List Jmap).map WorkerInput.recv
          ++ [WorkerInput.shutdown []])).length = (3 + 2 - 1) / 2
      ∧ (∀ d ∈ runWorker 2 [] (([[("a", Json.num 1)], [("b", Json.num 2)],
          [("c", Json.num 3)]] : List Jmap).map WorkerInput.recv
          ++ [WorkerInput.shutdown []]), d.length ≤ 2)
      ∧ (runWorker 2 [] (([[("a", Json.num 1)], [("b", Json.num 2)],
          [("c", Json.num 3)]] : List Jmap).map WorkerInput.recv
          ++ [WorkerInput.shutdown []])).flatten
          = [[("a", Json.num 1)], [("b", Json.num 2)], [("c", Json.num 3)]]) :=
  ⟨by decide, by decide,
   shipper_batching_C1 2 [[("a", Json.num 1)], [("b", Json.num 2)],
     [("c", Json.num 3)]] (by decide) (by decide)⟩

/-- C2: on a shutdown signal with the batch empty and `K` records already
buffered in the channel, the worker issues exactly `⌈K / batch_size⌉`
delivery calls before terminating (zero when `K = 0`), and the drain
delivers exactly the already-buffered records, in order — it consumes
nothing else and never waits for new arrivals. -/
theorem shipper_shutdown_drain_C2 (bs : Nat) (buffered : List Jmap)
    (hbs : 1 ≤ bs) :
    (runWorker bs [] [WorkerInput.shutdown buffered]).length
        = (buffered.length + bs - 1) / bs
    ∧ (buffered = [] → runWorker bs [] [WorkerInput.shutdown buffered] = [])
    ∧ (runWorker bs [] [WorkerInput.shutdown buffered]).flatten = buffered := by
  have h := runWorker_complete bs hbs buffered (WorkerInput.shutdown [])
    (Or.inr rfl)
  have heq : runWorker bs [] (buffered.map WorkerInput.recv
      ++ [WorkerInput.shutdown []]) = runWorker bs [] [WorkerInput.shutdown buffered] := by
    rw [runWorker_recvs bs buffered [] [WorkerInput.shutdown []]]
    simp only [runWorker, processAcc]
    by_cases hp : (processAcc bs [] buffered).2.isEmpty <;> simp [hp]
  rw [heq] at h
  refine ⟨h.1, ?_, h.2.2⟩
  rintro rfl
  simp [runWorker, processAcc]

theorem shipper_shutdown_drain_C2_witness :
    1 ≤ 2 ∧
    ((runWorker 2 [] [WorkerInput.shutdown [[("a", Json.num 1)],
          [("b", Json.num 2)], [("c", Json.num 3)]]]).length = (3 + 2 - 1) / 2
      ∧ (([[("a", Json.num 1)], [("b", Json.num 2)], [("c", Json.num 3)]]
            : List Jmap) = []
          → runWorker 2 [] [WorkerInput.shutdown [[("a", Json.num 1)],
              [("b", Json.num 2)], [("c", Json.num 3)]]] = [])
      ∧ (runWorker 2 [] [WorkerInput.shutdown [[("a", Json.num 1)],
          [("b", Json.num 2)], [("c", Json.num 3)]]]).flatten
          = [[("a", Json.num 1)], [("b", Json.num 2)], [("c", Json.num 3)]]) :=
  ⟨by decide,
   shipper_shutdown_drain_C2 2 [[("a", Json.num 1)], [("b", Json.num 2)],
     [("c", Json.num 3)]] (by decide)⟩

/-- A delivery attempt that failed: non-2xx status or transport error
(the cases `flush` reports on stderr). -/
def sendFailed : SendResult → Bool
  | SendResult.ok status => !statusIsSuccess status
  | SendResult.err _ => true

/-- C3: every `flush` leaves the batch empty immediately whatever the
delivery outcome; the drained records are exactly the ones handed to the
client (never requeued — the kept batch is empty even on failure), a
failure is reported on the diagnostic stream exactly when the outcome is a
non-2xx status or a transport error, and the worker afterwards continues
from the same (empty-batch) state. -/
theorem flush_clears_batch_C3 (batch : List Jmap) (r : SendResult) :
    (flush batch r).batch = []
    ∧ (flush batch r).sent = batch
    ∧ ((flush batch r).diagnostics ≠ [] ↔ sendFailed r = true)
    ∧ (∀ bs inputs, runWorker bs (flush batch r).batch inputs
        = runWorker bs [] inputs) := by
  refine ⟨rfl, rfl, ?_, fun bs inputs => rfl⟩
  cases r with
  | ok status =>
      by_cases hs : statusIsSuccess status <;>
        simp [flush, sendFailed, hs]
  | err e => simp [flush, sendFailed]

/-- C9: every reachable delivery call of the worker carries a non-empty
batch, whichever select arms fire in whatever order (size-triggered flush,
timer flush, channel close, shutdown drain). -/
theorem flush_never_empty_C9 (bs : Nat) (inputs : List WorkerInput) :
    ∀ d ∈ runWorker bs [] inputs, d ≠ [] := by
  have hacc : ∀ (records batch : List Jmap) (d : List Jmap),
      d ∈ (processAcc bs batch records).1 → d ≠ [] := by
    intro records
    induction records with
    | nil => intro batch d hd; simp [processAcc] at hd
    | cons r rest ih =>
      intro batch d hd
      simp only [processAcc] at hd
      by_cases hb : bs ≤ (batch ++ [r]).length
      · rw [if_pos hb] at hd
        rcases List.mem_cons.mp hd with h1 | h1
        · subst h1; simp
        · exact ih [] d h1
      · rw [if_neg hb] at hd
        exact ih (batch ++ [r]) d hd
  suffices h : ∀ (inputs : List WorkerInput) (batch : List Jmap),
      ∀ d ∈ runWorker bs batch inputs, d ≠ [] from h inputs []
  intro inputs
  induction inputs with
  | nil => intro batch d hd; simp [runWorker] at hd
  | cons i rest ih =>
    intro batch d hd
    cases i with
    | recv v =>
      simp only [runWorker] at hd
      by_cases hb : bs ≤ (batch ++ [v]).length
      · rw [if_pos hb] at hd
        rcases List.mem_cons.mp hd with h1 | h1
        · subst h1; simp
        · exact ih [] d h1
      · rw [if_neg hb] at hd
        exact ih (batch ++ [v]) d hd
    | timerTick =>
      simp only [runWorker] at hd
      by_cases hb : batch.isEmpty
      · rw [if_pos hb] at hd
        exact ih batch d hd
      · rw [if_neg hb] at hd
        rcases List.mem_cons.mp hd with h1 | h1
        · subst h1; simpa [List.isEmpty_iff] using hb
        · exact ih [] d h1
    | shutdown buffered =>
      simp only [runWorker] at hd
      by_cases hp : (processAcc bs batch buffered).2.isEmpty
      · rw [if_pos hp] at hd
        exact hacc buffered batch d hd
      · rw [if_neg hp] at hd
        rcases List.mem_append.mp hd with h1 | h1
        · exact hacc buffered batch d h1
        · have : d = (processAcc bs batch buffered).2 := by simpa using h1
          subst this
          simpa [List.isEmpty_iff] using hp
    | channelClosed =>
      simp only [runWorker] at hd
      by_cases hb : batch.isEmpty
      · rw [if_pos hb] at hd
        simp at hd
      · rw [if_neg hb] at hd
        have : d = batch := by simpa using hd
        subst this
        simpa [List.isEmpty_iff] using hb

theorem flush_never_empty_C9_witness :
    ([("a", Json.num 1)] : Jmap) :: []
        ∈ runWorker 1 [] [WorkerInput.recv [("a", Json.num 1)]]
    ∧ (([("a", Json.num 1)] : Jmap) :: []) ≠ [] :=
  ⟨by simp [runWorker],
   flush_never_empty_C9 1 [WorkerInput.recv [("a", Json.num 1)]]
     ([("a", Json.num 1)] :: []) (by simp [runWorker])⟩

/-! ### Map lemmas for the normaliser and the span store -/

lemma lookup_mapInsert (m : Jmap) (k : String) (v : Json) (q : String) :
    lookupKey (mapInsert m k v) q = if q = k then some v else lookupKey m q := by
  induction m with
  | nil =>
    show (if k = q then some v else none) = if q = k then some v else none
    by_cases h : k = q
    · rw [if_pos h, if_pos h.symm]
    · rw [if_neg h, if_neg (fun hc => h hc.symm)]
  | cons e rest ih =>
    obtain ⟨k', v'⟩ := e
    show lookupKey (if k' = k then (k, v) :: rest
        else (k', v') :: mapInsert rest k v) q = _
    by_cases h1 : k' = k
    · rw [if_pos h1]
      show (if k = q then some v else lookupKey rest q)
          = if q = k then some v else lookupKey ((k', v') :: rest) q
      by_cases h2 : k = q
      · rw [if_pos h2, if_pos h2.symm]
      · rw [if_neg h2, if_neg (fun hc => h2 hc.symm)]
        show lookupKey rest q = if k' = q then some v' else lookupKey rest q
        rw [if_neg (fun hc : k' = q => h2 (h1 ▸ hc))]
    · rw [if_neg h1]
      show (if k' = q then some v' else lookupKey (mapInsert rest k v) q)
          = if q = k then some v else lookupKey ((k', v') :: rest) q
      by_cases h2 : k' = q
      · rw [if_pos h2, if_neg (fun hc : q = k => h1 (h2.trans hc))]
        show some v' = if k' = q then some v' else lookupKey rest q
        rw [if_pos h2]
      · rw [if_neg h2, ih]
        by_cases h3 : q = k
        · rw [if_pos h3, if_pos h3]
        · rw [if_neg h3, if_neg h3]
          show lookupKey rest q = if k' = q then some v' else lookupKey rest q
          rw [if_neg h2]

lemma lookup_foldIns (l : List (String × Json)) :
    ∀ (m : Jmap) (q : String),
      lookupKey (l.foldl (fun acc e => mapInsert acc e.1 e.2) m) q
        = (lookupKey (visitorFields l) q).or (lookupKey m q) := by
  induction l with
  | nil => intro m q; simp [visitorFields, lookupKey]
  | cons e rest ih =>
    intro m q
    obtain ⟨k, v⟩ := e
    have hl : visitorFields ((k, v) :: rest)
        = rest.foldl (fun acc e => mapInsert acc e.1 e.2) (mapInsert [] k v) := by
      simp [visitorFields]
    simp only [List.foldl_cons, ih, hl]
    rw [lookup_mapInsert, lookup_mapInsert]
    by_cases h : q = k
    · subst h
      cases hr : lookupKey (visitorFields rest) q <;> simp [Option.or]
    · simp only [if_neg h]
      cases hr : lookupKey (visitorFields rest) q <;> simp [Option.or, lookupKey]

lemma lookup_mapExtend (m news : Jmap) (q : String) :
    lookupKey (mapExtend m news) q
      = (lookupKey (visitorFields news) q).or (lookupKey m q) :=
  lookup_foldIns news m q

lemma keys_mapInsert (m : Jmap) (k : String) (v : Json) :
    (mapInsert m k v).map Prod.fst
      = if k ∈ m.map Prod.fst then m.map Prod.fst else m.map Prod.fst ++ [k] := by
  induction m with
  | nil => simp [mapInsert]
  | cons e rest ih =>
    obtain ⟨k', v'⟩ := e
    simp only [mapInsert]
    by_cases h1 : k' = k
    · subst h1; simp
    · have h2 : ¬ k = k' := fun hc => h1 hc.symm
      simp only [List.map_cons, List.mem_cons, if_neg h1, ih]
      by_cases h3 : k ∈ rest.map Prod.fst <;> simp [h2, h3]

lemma nodup_keys_foldIns (l : List (String × Json)) :
    ∀ (m : Jmap), (m.map Prod.fst).Nodup →
      ((l.foldl (fun acc e => mapInsert acc e.1 e.2) m).map Prod.fst).Nodup := by
  induction l with
  | nil => intro m h; simpa using h
  | cons e rest ih =>
    intro m h
    simp only [List.foldl_cons]
    refine ih (mapInsert m e.1 e.2) ?_
    rw [keys_mapInsert]
    by_cases h3 : e.1 ∈ m.map Prod.fst
    · simpa [h3] using h
    · rw [if_neg h3, List.nodup_append]
      refine ⟨h, List.nodup_singleton _, ?_⟩
      intro a ha hb
      simp only [List.mem_singleton] at hb
      subst hb
      exact h3 ha

lemma nodup_keys_visitorFields (l : List (String × Json)) :
    ((visitorFields l).map Prod.fst).Nodup :=
  nodup_keys_foldIns l [] (by simp)

lemma lookup_none_of_not_mem_keys (m : Jmap) (q : String)
    (h : q ∉ m.map Prod.fst) : lookupKey m q = none := by
  induction m with
  | nil => rfl
  | cons e rest ih =>
    obtain ⟨k', v'⟩ := e
    simp only [List.map_cons, List.mem_cons] at h
    push_neg at h
    have hne : ¬ k' = q := fun hc => h.1 hc.symm
    simp only [lookupKey, if_neg hne]
    exact ih h.2

lemma lookup_visitorFields_of_nodup (m : Jmap)
    (h : (m.map Prod.fst).Nodup) (q : String) :
    lookupKey (visitorFields m) q = lookupKey m q := by
  induction m with
  | nil => rfl
  | cons e rest ih =>
    obtain ⟨k, v⟩ := e
    simp only [List.map_cons, List.nodup_cons] at h
    have hfold : visitorFields ((k, v) :: rest)
        = rest.foldl (fun acc e => mapInsert acc e.1 e.2) (mapInsert [] k v) := by
      simp [visitorFields]
    rw [hfold, lookup_foldIns, lookup_mapInsert]
    by_cases hq : q = k
    · subst hq
      rw [ih h.2] at *
      rw [lookup_none_of_not_mem_keys rest q h.1]
      simp [lookupKey, Option.or]
    · have hne : ¬ k = q := fun hc => hq hc.symm
      simp only [if_neg hq, lookupKey, if_neg hne, ih h.2]
      cases lookupKey rest q <;> simp [Option.or]

lemma lookup_mapRemove (m : Jmap) (k q : String) :
    lookupKey (mapRemove m k) q = if q = k then none else lookupKey m q := by
  induction m with
  | nil => simp [mapRemove, lookupKey]
  | cons e rest ih =>
    obtain ⟨k', v'⟩ := e
    by_cases h1 : k' = k
    · have hdrop : mapRemove ((k', v') :: rest) k = mapRemove rest k := by
        simp [mapRemove, h1]
      rw [hdrop, ih]
      by_cases h2 : q = k
      · simp [h2]
      · have hne : ¬ k' = q := fun hc => h2 (hc ▸ h1)
        simp [lookupKey, h2, hne]
    · have hkeep : mapRemove ((k', v') :: rest) k = (k', v') :: mapRemove rest k := by
        simp [mapRemove, h1]
      rw [hkeep]
      by_cases h2 : k' = q
      · have hqk : ¬ q = k := fun hc => h1 (h2.trans hc)
        simp [lookupKey, h2, hqk]
      · simp [lookupKey, h2, ih]

/-- Lookup of a key inside a JSON value, when that value is an object. -/
def objLookup (j : Json) (k : String) : Option Json :=
  match j with
  | Json.obj m => lookupKey m k
  | _ => none

/-- The span object `on_event` builds for stored span data: a fresh map,
`name` inserted first, then every accumulated span field inserted over it. -/
def spanObjOf (data : SpanData) : Json :=
  Json.obj (mapExtend (mapInsert [] "name" (Json.str data.name)) data.fields)

lemma lookup_on_event_message (meta : EventMeta)
    (recorded : List (String × Json)) (sd : Option SpanData) (now : String) :
    lookupKey (on_event meta recorded sd now) "message"
      = some ((lookupKey (visitorFields recorded) "message").getD (Json.str "")) := by
  cases sd <;>
    by_cases hvf : (mapRemove (visitorFields recorded) "message").isEmpty <;>
      simp [on_event, hvf, lookup_mapInsert]

lemma lookup_on_event_fields (meta : EventMeta)
    (recorded : List (String × Json)) (sd : Option SpanData) (now : String) :
    lookupKey (on_event meta recorded sd now) "fields"
      = if (mapRemove (visitorFields recorded) "message").isEmpty then none
        else some (Json.obj (mapRemove (visitorFields recorded) "message")) := by
  cases sd <;>
    by_cases hvf : (mapRemove (visitorFields recorded) "message").isEmpty <;>
      simp [on_event, hvf, lookup_mapInsert, lookupKey]

lemma lookup_on_event_span (meta : EventMeta)
    (recorded : List (String × Json)) (sd : Option SpanData) (now : String) :
    lookupKey (on_event meta recorded sd now) "span" = sd.map spanObjOf := by
  cases sd <;>
    by_cases hvf : (mapRemove (visitorFields recorded) "message").isEmpty <;>
      simp [on_event, hvf, lookup_mapInsert, spanObjOf, lookupKey]

lemma lookup_on_event_dt (meta : EventMeta)
    (recorded : List (String × Json)) (sd : Option SpanData) (now : String) :
    lookupKey (on_event meta recorded sd now) "dt" = some (Json.str now) := by
  cases sd <;>
    by_cases hvf : (mapRemove (visitorFields recorded) "message").isEmpty <;>
      simp [on_event, hvf, lookup_mapInsert, lookupKey]

lemma lookup_on_event_level (meta : EventMeta)
    (recorded : List (String × Json)) (sd : Option SpanData) (now : String) :
    lookupKey (on_event meta recorded sd now) "level"
      = some (Json.str meta.level) := by
  cases sd <;>
    by_cases hvf : (mapRemove (visitorFields recorded) "message").isEmpty <;>
      simp [on_event, hvf, lookup_mapInsert, lookupKey]

lemma lookup_on_event_target (meta : EventMeta)
    (recorded : List (String × Json)) (sd : Option SpanData) (now : String) :
    lookupKey (on_event meta recorded sd now) "target"
      = some (Json.str meta.target) := by
  cases sd <;>
    by_cases hvf : (mapRemove (visitorFields recorded) "message").isEmpty <;>
      simp [on_event, hvf, lookup_mapInsert, lookupKey]

/-- C4: the normaliser removes the field literally named `message` from the
event's field set and uses its value as the top-level `message` key (empty
string when absent); `message` never appears inside the `fields` object. -/
theorem message_extraction_C4 (meta : EventMeta)
    (recorded : List (String × Json)) (sd : Option SpanData) (now : String) :
    lookupKey (on_event meta recorded sd now) "message"
        = some ((lookupKey (visitorFields recorded) "message").getD (Json.str ""))
    ∧ (lookupKey (on_event meta recorded sd now) "fields").bind
        (fun j => objLookup j "message") = none := by
  refine ⟨lookup_on_event_message meta recorded sd now, ?_⟩
  rw [lookup_on_event_fields]
  by_cases hvf : (mapRemove (visitorFields recorded) "message").isEmpty
  · simp [hvf]
  · simp [hvf, objLookup, lookup_mapRemove]

/-- C7: every normalised record carries `dt`, `level`, `message` and
`target`; the `fields` key is present exactly when the event's remaining
field set (after extracting `message`) is non-empty; the `span` key is
absent when no span is active. -/
theorem record_shape_C7 (meta : EventMeta)
    (recorded : List (String × Json)) (sd : Option SpanData) (now : String) :
    lookupKey (on_event meta recorded sd now) "dt" = some (Json.str now)
    ∧ lookupKey (on_event meta recorded sd now) "level"
        = some (Json.str meta.level)
    ∧ (∃ msg, lookupKey (on_event meta recorded sd now) "message" = some msg)
    ∧ lookupKey (on_event meta recorded sd now) "target"
        = some (Json.str meta.target)
    ∧ ((lookupKey (on_event meta recorded sd now) "fields").isSome
        ↔ mapRemove (visitorFields recorded) "message" ≠ [])
    ∧ lookupKey (on_event meta recorded none now) "span" = none := by
  refine ⟨lookup_on_event_dt .., lookup_on_event_level ..,
    ⟨_, lookup_on_event_message ..⟩, lookup_on_event_target .., ?_, ?_⟩
  · rw [lookup_on_event_fields]
    by_cases hvf : (mapRemove (visitorFields recorded) "message").isEmpty
    · simp [hvf, List.isEmpty_iff.mp hvf]
    · have : mapRemove (visitorFields recorded) "message" ≠ [] := by
        simpa [List.isEmpty_iff] using hvf
      simp [hvf, this]
  · rw [lookup_on_event_span]
    rfl

/-- Well-formedness of stored span data: its field map holds each key at
most once — an invariant of every map the code ever builds. -/
def WellFormedSpan (data : SpanData) : Prop :=
    (data.fields.map Prod.fst).Nodup

lemma lookup_spanObjOf (data : SpanData) (hwf : WellFormedSpan data)
    (q : String) :
    objLookup (spanObjOf data) q
      = (lookupKey data.fields q).or
          (if q = "name" then some (Json.str data.name) else none) := by
  show lookupKey (mapExtend (mapInsert [] "name" (Json.str data.name))
      data.fields) q = _
  rw [lookup_mapExtend, lookup_visitorFields_of_nodup data.fields hwf,
    lookup_mapInsert]
  by_cases h : q = "name" <;> simp [h, lookupKey]

/-- C5: with an active span, the record's `span` object holds the span's
declared name under `name` together with the span's accumulated fields,
while the record's `fields` object is exactly what it would be with no
active span — span fields and event fields are never merged into one map. -/
theorem span_object_C5 (meta : EventMeta) (recorded : List (String × Json))
    (data : SpanData) (now : String) (hwf : WellFormedSpan data) :
    ∃ smap, lookupKey (on_event meta recorded (some data) now) "span"
        = some (Json.obj smap)
      ∧ (∀ q, lookupKey smap q
          = (lookupKey data.fields q).or
              (if q = "name" then some (Json.str data.name) else none))
      ∧ lookupKey (on_event meta recorded (some data) now) "fields"
          = lookupKey (on_event meta recorded none now) "fields" := by
  refine ⟨mapExtend (mapInsert [] "name" (Json.str data.name)) data.fields,
    ?_, ?_, ?_⟩
  · rw [lookup_on_event_span]; rfl
  · intro q
    exact lookup_spanObjOf data hwf q
  · rw [lookup_on_event_fields, lookup_on_event_fields]

theorem span_object_C5_witness :
    WellFormedSpan ⟨"request", [("user_id", Json.num 42)]⟩ ∧
    (∃ smap, lookupKey (on_event ⟨"INFO", "app"⟩ [("status", Json.num 500)]
          (some ⟨"request", [("user_id", Json.num 42)]⟩) "t") "span"
        = some (Json.obj smap)
      ∧ (∀ q, lookupKey smap q
          = (lookupKey ([("user_id", Json.num 42)] : Jmap) q).or
              (if q = "name" then some (Json.str "request") else none))
      ∧ lookupKey (on_event ⟨"INFO", "app"⟩ [("status", Json.num 500)]
            (some ⟨"request", [("user_id", Json.num 42)]⟩) "t") "fields"
          = lookupKey (on_event ⟨"INFO", "app"⟩ [("status", Json.num 500)]
              none "t") "fields") :=
  ⟨by simp [WellFormedSpan],
   span_object_C5 ⟨"INFO", "app"⟩ [("status", Json.num 500)]
     ⟨"request", [("user_id", Json.num 42)]⟩ "t" (by simp [WellFormedSpan])⟩

/-- C10: if the span's accumulated field map itself holds a key literally
named `name`, the emitted `span` object maps `name` to that recorded value,
not to the span's declared name — the accumulated fields are inserted after
the name entry and overwrite it. -/
theorem span_name_collision_C10 (meta : EventMeta)
    (recorded : List (String × Json)) (data : SpanData) (now : String)
    (v : Json) (hwf : WellFormedSpan data)
    (hv : lookupKey data.fields "name" = some v) :
    (lookupKey (on_event meta recorded (some data) now) "span").bind
        (fun j => objLookup j "name") = some v := by
  rw [lookup_on_event_span]
  show objLookup (spanObjOf data) "name" = some v
  rw [lookup_spanObjOf data hwf, hv]
  rfl

theorem span_name_collision_C10_witness :
    WellFormedSpan ⟨"request", [("name", Json.str "other")]⟩ ∧
    lookupKey ([("name", Json.str "other")] : Jmap) "name"
        = some (Json.str "other") ∧
    (lookupKey (on_event ⟨"INFO", "app"⟩ []
        (some ⟨"request", [("name", Json.str "other")]⟩) "t") "span").bind
        (fun j => objLookup j "name") = some (Json.str "other") :=
  ⟨by simp [WellFormedSpan], rfl,
   span_name_collision_C10 ⟨"INFO", "app"⟩ []
     ⟨"request", [("name", Json.str "other")]⟩ "t" (Json.str "other")
     (by simp [WellFormedSpan]) rfl⟩

lemma storeLookup_storeUpdate (store : SpanStore) (id : Nat) (nd : SpanData) :
    (storeLookup store id).isSome →
      storeLookup (storeUpdate store id nd) id = some nd := by
  induction store with
  | nil => intro h; simp [storeLookup] at h
  | cons e rest ih =>
    obtain ⟨i, d⟩ := e
    intro h
    by_cases h1 : i = id
    · simp [storeUpdate, storeLookup, h1]
    · simp only [storeUpdate, if_neg h1, storeLookup]
      apply ih
      simpa [storeLookup, if_neg h1] using h

/-- C6: a field-recording call against a stored span id merges the newly
recorded fields into the existing entry — new values win on key collision,
every other existing key keeps its value — and the entry's name is
unchanged; recording against an unknown span id leaves the store as it
was. -/
theorem on_record_merges_C6 (store : SpanStore) (id : Nat)
    (recorded : List (String × Json)) :
    (∀ data, storeLookup store id = some data →
        ∃ data', storeLookup (on_record store id recorded) id = some data'
          ∧ data'.name = data.name
          ∧ ∀ q, lookupKey data'.fields q
              = (lookupKey (visitorFields recorded) q).or
                  (lookupKey data.fields q))
    ∧ (storeLookup store id = none → on_record store id recorded = store) := by
  constructor
  · intro data hdata
    refine ⟨{ data with
        fields := mapExtend data.fields (visitorFields recorded) }, ?_, rfl, ?_⟩
    · unfold on_record
      rw [hdata]
      exact storeLookup_storeUpdate store id _ (by simp [hdata])
    · intro q
      rw [lookup_mapExtend,
        lookup_visitorFields_of_nodup _ (nodup_keys_visitorFields recorded)]
  · intro hnone
    unfold on_record
    rw [hnone]

theorem on_record_merges_C6_witness :
    storeLookup [(1, ⟨"request", [("user_id", Json.num 42)]⟩)] 1
        = some ⟨"request", [("user_id", Json.num 42)]⟩ ∧
    (∃ data', storeLookup (on_record
          [(1, ⟨"request", [("user_id", Json.num 42)]⟩)] 1
          [("user_id", Json.num 7), ("extra", Json.bool true)]) 1 = some data'
      ∧ data'.name = "request"
      ∧ ∀ q, lookupKey data'.fields q
          = (lookupKey (visitorFields
              [("user_id", Json.num 7), ("extra", Json.bool true)]) q).or
              (lookupKey ([("user_id", Json.num 42)] : Jmap) q)) :=
  ⟨rfl,
   (on_record_merges_C6 [(1, ⟨"request", [("user_id", Json.num 42)]⟩)] 1
       [("user_id", Json.num 7), ("extra", Json.bool true)]).1
     ⟨"request", [("user_id", Json.num 42)]⟩ rfl⟩

/-! ### Timestamp utility (`chrono_now_iso`, `days_to_ymd` in `src/layer.rs`) -/

/-- days_to_ymd: convert days since the Unix epoch to (year, month, day),
following the source's i64/u64 arithmetic (Howard Hinnant's civil-calendar
algorithm).  `days` comes from `secs / 86400`, a `u64`, hence `Nat`. -/
def days_to_ymd (days : Nat) : Int × Nat × Nat :=
  let z : Int := (days : Int) + 719468
  let era : Int := (if 0 ≤ z then z else z - 146096) / 146097
  let doe : Nat := (z - era * 146097).toNat
  let yoe : Nat := (doe - doe / 1460 + doe / 36524 - doe / 146096) / 365
  let y : Int := (yoe : Int) + era * 400
  let doy : Nat := doe - (365 * yoe + yoe / 4 - yoe / 100)
  let mp : Nat := (5 * doy + 2) / 153
  let d : Nat := doy - (153 * mp + 2) / 5 + 1
  let m : Nat := if mp < 10 then mp + 3 else mp - 9
  (if m ≤ 2 then y + 1 else y, m, d)

/-- Year-of-era computed from day-of-era, the `yoe` line of `days_to_ymd`. -/
def gYoe (doe : Nat) : Nat :=
  (doe - doe / 1460 + doe / 36524 - doe / 146096) / 365

/-- Day-of-era on which year-of-era `y` starts: `365*yoe + yoe/4 - yoe/100`
as in the `doy` line of `days_to_ymd`. -/
def startOfYoe (y : Nat) : Nat := 365 * y + y / 4 - y / 100

/-- Day-of-year (March-based) from day-of-era, the `doy` line. -/
def doyOf (doe : Nat) : Nat := doe - startOfYoe (gYoe doe)

/-- Month-index (March = 0) from day-of-year, the `mp` line. -/
def mpOf (doy : Nat) : Nat := (5 * doy + 2) / 153

/-- Day-of-month from day-of-year, the `d` line. -/
def dayOfMp (doy : Nat) : Nat := doy - (153 * mpOf doy + 2) / 5 + 1

/-- Calendar month from month-index, the `m` line. -/
def monthOfMp (mp : Nat) : Nat := if mp < 10 then mp + 3 else mp - 9

/-- The same pipeline as `days_to_ymd`, written over `Nat` (valid because
`z = days + 719468 ≥ 0`, so the i64 steps never go negative). -/
def ymdN (days : Nat) : Int × Nat × Nat :=
  let doe := (days + 719468) % 146097
  let m := monthOfMp (mpOf (doyOf doe))
  let y : Int := (gYoe doe : Int) + (((days + 719468) / 146097 : Nat) : Int) * 400
  (if m ≤ 2 then y + 1 else y, m, dayOfMp (doyOf doe))

lemma days_to_ymd_eq (days : Nat) : days_to_ymd days = ymdN days := by
  have hz : (0 : Int) ≤ (days : Int) + 719468 := by positivity
  have hera : ((days : Int) + 719468) / 146097
      = (((days + 719468) / 146097 : Nat) : Int) := by omega
  have hdoe : (((days : Int) + 719468)
      - (((days + 719468) / 146097 : Nat) : Int) * 146097).toNat
      = (days + 719468) % 146097 := by omega
  simp only [days_to_ymd]
  rw [if_pos hz, hera, hdoe]
  rfl

/-! ### Spec-side civil (proleptic Gregorian) calendar -/

/-- A calendar date. -/
structure Date where
  year : Int
  month : Nat
  day : Nat
  deriving DecidableEq

/-- Spec-side Gregorian leap-year rule: divisible by 4 and not by 100,
or divisible by 400. -/
def isLeap (y : Int) : Bool := (y % 4 == 0 && !(y % 100 == 0)) || y % 400 == 0

/-- Spec-side month lengths of the Gregorian calendar. -/
def daysInMonth (y : Int) (m : Nat) : Nat :=
  if m = 2 then (if isLeap y then 29 else 28)
  else if m = 4 ∨ m = 6 ∨ m = 9 ∨ m = 11 then 30
  else 31

/-- Spec-side calendar successor: the day after `dt`. -/
def nextDay (dt : Date) : Date :=
  if dt.day < daysInMonth dt.year dt.month then
    { dt with day := dt.day + 1 }
  else if dt.month < 12 then
    { dt with month := dt.month + 1, day := 1 }
  else
    { year := dt.year + 1, month := 1, day := 1 }

/-- The civil date `n` days after 1970-01-01: the epoch date advanced `n`
times by the calendar successor. -/
def civilFromDays (n : Nat) : Date :=
  nextDay^[n] { year := 1970, month := 1, day := 1 }

/-- The date computed by the source's `days_to_ymd`. -/
def dateOfYmd (n : Nat) : Date :=
  { year := (days_to_ymd n).1
    month := (days_to_ymd n).2.1
    day := (days_to_ymd n).2.2 }

/-! ### Correctness of the year-of-era computation -/

/-- Last day-of-era of year-of-era `y` (the 400-year era has 146097 days,
the final year-of-era 399 owning the era's leap day). -/
def endOf (y : Nat) : Nat :=
  if y = 399 then 146096 else startOfYoe (y + 1) - 1

/-- Number of days in year-of-era `y`. -/
def yearLen (y : Nat) : Nat := endOf y + 1 - startOfYoe y

set_option maxRecDepth 100000 in
lemma yoe_facts : ∀ y < 400,
    gYoe (startOfYoe y) = y ∧ gYoe (endOf y) = y
    ∧ startOfYoe y ≤ endOf y ∧ endOf y ≤ 146096
    ∧ (y < 399 → endOf y + 1 = startOfYoe (y + 1))
    ∧ 365 ≤ yearLen y ∧ yearLen y ≤ 366
    ∧ (yearLen y = 366
        ↔ ((y + 1) % 4 = 0 ∧ ((y + 1) % 100 ≠ 0 ∨ y = 399))) := by
  decide

lemma sub_div_self_mono (n : Nat) (hn : 0 < n) (a b : Nat) (hab : a ≤ b) :
    a - a / n ≤ b - b / n := by
  obtain ⟨m, rfl⟩ : ∃ m, n = m + 1 := ⟨n - 1, by omega⟩
  have key : ∀ x : Nat, x - x / (m + 1) = (x * m + m) / (m + 1) := by
    intro x
    obtain ⟨q, r, hr, rfl⟩ : ∃ q r, r < m + 1 ∧ x = (m + 1) * q + r :=
      ⟨x / (m + 1), x % (m + 1), Nat.mod_lt _ hn, (Nat.div_add_mod ..).symm⟩
    obtain ⟨t, ht⟩ : ∃ t, m = r + t := ⟨m - r, by omega⟩
    have hsplit : ((m + 1) * q + r) * m + m
        = (m + 1) * (m * q) + ((m + 1) * r + t) := by
      subst ht; ring
    have hdivlhs : ((m + 1) * q + r) / (m + 1) = q := by
      rw [Nat.mul_add_div hn, Nat.div_eq_of_lt hr, Nat.add_zero]
    rw [hdivlhs, hsplit, Nat.mul_add_div hn, Nat.mul_add_div hn,
      Nat.div_eq_of_lt (by omega)]
    have hlin : (m + 1) * q = m * q + q := by ring
    omega
  rw [key a, key b]
  exact Nat.div_le_div_right (by have := Nat.mul_le_mul_right m hab; omega)

lemma gYoe_arg_mono (a b : Nat) (hab : a ≤ b) (hb : b ≤ 146096) :
    a - a / 1460 + a / 36524 - a / 146096
      ≤ b - b / 1460 + b / 36524 - b / 146096 := by
  have h1 : a - a / 1460 ≤ b - b / 1460 :=
    sub_div_self_mono 1460 (by omega) a b hab
  have h2 : a / 36524 ≤ b / 36524 := Nat.div_le_div_right hab
  by_cases hend : b = 146096
  · subst hend
    by_cases ha : a = 146096
    · subst ha; exact le_refl _
    · have ha1 : a ≤ 146095 := by omega
      have h3 : a - a / 1460 ≤ 146095 - 146095 / 1460 :=
        sub_div_self_mono 1460 (by omega) a 146095 ha1
      have h4 : a / 36524 ≤ 146095 / 36524 := Nat.div_le_div_right ha1
      norm_num at h3 h4 ⊢
      omega
  · have hb1 : b ≤ 146095 := by omega
    have hza : a / 146096 = 0 := Nat.div_eq_of_lt (by omega)
    have hzb : b / 146096 = 0 := Nat.div_eq_of_lt (by omega)
    rw [hza, hzb]
    omega

lemma gYoe_mono (a b : Nat) (hab : a ≤ b) (hb : b ≤ 146096) :
    gYoe a ≤ gYoe b :=
  Nat.div_le_div_right (gYoe_arg_mono a b hab hb)

lemma gYoe_sandwich (y x : Nat) (hy : y < 400)
    (h1 : startOfYoe y ≤ x) (h2 : x ≤ endOf y) : gYoe x = y := by
  obtain ⟨d1, d2, d3, d4, -, -, -, -⟩ := yoe_facts y hy
  have hx146 : x ≤ 146096 := le_trans h2 d4
  have hlow : y ≤ gYoe x := by
    have := gYoe_mono (startOfYoe y) x h1 hx146
    omega
  have hhigh : gYoe x ≤ y := by
    have := gYoe_mono x (endOf y) h2 d4
    omega
  omega

lemma findGreatest_base (P : Nat → Prop) [DecidablePred P] (n : Nat)
    (h0 : P 0) : P (Nat.findGreatest P n) :=
  Nat.findGreatest_spec (Nat.zero_le n) h0

lemma findGreatest_above (P : Nat → Prop) [DecidablePred P] (n : Nat)
    (hlt : Nat.findGreatest P n < n) : ¬ P (Nat.findGreatest P n + 1) :=
  Nat.findGreatest_is_greatest (Nat.lt_succ_self _) (Nat.succ_le_of_lt hlt)

lemma yoe_spec (x : Nat) (hx : x ≤ 146096) :
    gYoe x ≤ 399 ∧ startOfYoe (gYoe x) ≤ x ∧ x ≤ endOf (gYoe x) := by
  have hP0 : startOfYoe 0 ≤ x := by simp [startOfYoe]
  have hPy : startOfYoe (Nat.findGreatest (fun y => startOfYoe y ≤ x) 399) ≤ x :=
    findGreatest_base (fun y => startOfYoe y ≤ x) 399 hP0
  have hy399 : Nat.findGreatest (fun y => startOfYoe y ≤ x) 399 ≤ 399 :=
    Nat.findGreatest_le 399
  set w := Nat.findGreatest (fun y => startOfYoe y ≤ x) 399 with hw
  have hup : x ≤ endOf w := by
    by_cases h399 : w = 399
    · rw [h399]; unfold endOf; rw [if_pos rfl]; exact hx
    · have hnot : ¬ startOfYoe
          (Nat.findGreatest (fun y => startOfYoe y ≤ x) 399 + 1) ≤ x :=
        findGreatest_above (fun y => startOfYoe y ≤ x) 399 (by omega)
      rw [← hw] at hnot
      unfold endOf
      rw [if_neg h399]
      omega
  have hgx : gYoe x = w := gYoe_sandwich w x (by omega) hPy hup
  rw [hgx]
  exact ⟨by omega, hPy, hup⟩

lemma mpOf_eq (doy mp : Nat) (hmp : mp < 12) (h1 : (153 * mp + 2) / 5 ≤ doy)
    (h2 : doy < (153 * (mp + 1) + 2) / 5) : mpOf doy = mp := by
  unfold mpOf; omega

lemma mp_sandwich (doy : Nat) (h : doy ≤ 365) :
    (153 * mpOf doy + 2) / 5 ≤ doy ∧ doy < (153 * (mpOf doy + 1) + 2) / 5
    ∧ mpOf doy < 12 := by
  unfold mpOf
  refine ⟨by omega, by omega, by omega⟩

lemma monthStart_lt (i : Nat) : (153 * i + 2) / 5 < (153 * (i + 1) + 2) / 5 := by
  omega

lemma month_facts : ∀ mp < 12,
    1 ≤ monthOfMp mp ∧ monthOfMp mp ≤ 12
    ∧ (monthOfMp mp = 2 ↔ mp = 11)
    ∧ (monthOfMp mp ≤ 2 ↔ 10 ≤ mp)
    ∧ (monthOfMp mp = 12 ↔ mp = 9) := by
  decide

lemma month_step : ∀ mp < 11,
    (monthOfMp mp = 12 → monthOfMp (mp + 1) = 1)
    ∧ (monthOfMp mp < 12 → monthOfMp (mp + 1) = monthOfMp mp + 1)
    ∧ ((monthOfMp (mp + 1) ≤ 2) ↔ (monthOfMp mp ≤ 2 ∨ monthOfMp mp = 12)) := by
  decide

lemma monthLen_const (mp : Nat) (hmp : mp < 11) (y : Int) :
    daysInMonth y (monthOfMp mp)
      = (153 * (mp + 1) + 2) / 5 - (153 * mp + 2) / 5 := by
  interval_cases mp <;> simp [daysInMonth, monthOfMp]

lemma isLeap_iff (y : Int) :
    isLeap y = true ↔ ((y % 4 = 0 ∧ y % 100 ≠ 0) ∨ y % 400 = 0) := by
  simp [isLeap]

lemma feb_len (era yoe : Nat) (hy : yoe < 400) :
    daysInMonth ((yoe : Int) + (era : Int) * 400 + 1) 2 = yearLen yoe - 337 := by
  obtain ⟨-, -, -, -, -, d6, d7, d8⟩ := yoe_facts yoe hy
  unfold daysInMonth
  rw [if_pos rfl]
  by_cases hl : isLeap ((yoe : Int) + (era : Int) * 400 + 1) = true
  · rw [if_pos hl, isLeap_iff] at *
    omega
  · rw [if_neg hl]
    rw [isLeap_iff] at hl
    omega

/-- View of a `days_to_ymd` result as a `Date`. -/
def dateOf (p : Int × Nat × Nat) : Date :=
  { year := p.1, month := p.2.1, day := p.2.2 }

lemma ymdN_succ (n : Nat) : dateOf (ymdN (n + 1)) = nextDay (dateOf (ymdN n)) := by
  set era := (n + 719468) / 146097 with hera
  set doe := (n + 719468) % 146097 with hdoe
  have hdoe146 : doe ≤ 146096 := by omega
  obtain ⟨hy399, hstart, hend⟩ := yoe_spec doe hdoe146
  set yoe := gYoe doe with hyoe
  obtain ⟨d1, d2, d3, d4, d5, d6, d7, d8⟩ := yoe_facts yoe (by omega)
  have hyl : yearLen yoe = endOf yoe + 1 - startOfYoe yoe := rfl
  have hdoy : doyOf doe = doe - startOfYoe yoe := by
    rw [doyOf, ← hyoe]
  set doy := doyOf doe with hdoyset
  have hdoy365 : doy ≤ 365 := by omega
  obtain ⟨m1, m2, m3⟩ := mp_sandwich doy hdoy365
  set mp := mpOf doy with hmp
  have hD : dayOfMp doy = doy - (153 * mp + 2) / 5 + 1 := by
    rw [dayOfMp, ← hmp]
  obtain ⟨mf1, mf2, mf3, mf4, mf5⟩ := month_facts mp m3
  have hn_eq : dateOf (ymdN n)
      = { year := if monthOfMp mp ≤ 2
            then (yoe : Int) + (era : Int) * 400 + 1
            else (yoe : Int) + (era : Int) * 400
          month := monthOfMp mp
          day := dayOfMp doy } := by
    simp only [ymdN, dateOf]
  rw [hn_eq]
  by_cases hlast : doe = endOf yoe
  · -- last day of the (March-based) year-of-era: 28/29 February
    have hmp11 : mp = 11 := by
      rw [hmp]; unfold mpOf; omega
    have hM2 : monthOfMp mp = 2 := mf3.mpr hmp11
    have hd29 : dayOfMp doy = yearLen yoe - 337 := by
      rw [hD, hmp11]; omega
    have hfeb := feb_len era yoe (by omega)
    have hle2 : monthOfMp mp ≤ 2 := by omega
    have hncond : ¬ dayOfMp doy < daysInMonth
        (if monthOfMp mp ≤ 2 then (yoe : Int) + (era : Int) * 400 + 1
         else (yoe : Int) + (era : Int) * 400) (monthOfMp mp) := by
      rw [if_pos hle2, hM2, hfeb, hd29]; omega
    have hnext_eq : nextDay
        { year := if monthOfMp mp ≤ 2
            then (yoe : Int) + (era : Int) * 400 + 1
            else (yoe : Int) + (era : Int) * 400,
          month := monthOfMp mp,
          day := dayOfMp doy }
        = { year := (yoe : Int) + (era : Int) * 400 + 1,
            month := 3,
            day := 1 } := by
      simp only [nextDay]
      rw [if_neg hncond, if_pos (show monthOfMp mp < 12 by omega),
        if_pos hle2, hM2]
    rw [hnext_eq]
    by_cases h399 : yoe = 399
    · -- era rollover
      have hdoeval : doe = 146096 := by
        rw [hlast, h399]; unfold endOf; rw [if_pos rfl]
      have hdoe2 : (n + 1 + 719468) % 146097 = 0 := by omega
      have hera2 : (n + 1 + 719468) / 146097 = era + 1 := by omega
      have hn1_eq : dateOf (ymdN (n + 1))
          = { year := ((0 : Nat) : Int) + ((era + 1 : Nat) : Int) * 400,
              month := 3,
              day := 1 } := by
        simp only [ymdN, dateOf]
        rw [hdoe2, hera2]
        rfl
      rw [hn1_eq]
      simp only [Date.mk.injEq, and_true, true_and]
      push_cast
      omega
    · -- next year-of-era in the same era
      obtain ⟨e1, -, e3, e4, -, -, -, -⟩ := yoe_facts (yoe + 1) (by omega)
      have hnext : doe + 1 = startOfYoe (yoe + 1) := by omega
      have hse : startOfYoe (yoe + 1) ≤ endOf (yoe + 1) := e3
      have hdoe2 : (n + 1 + 719468) % 146097 = doe + 1 := by omega
      have hera2 : (n + 1 + 719468) / 146097 = era := by omega
      have hg2 : gYoe (doe + 1) = yoe + 1 := by
        rw [hnext, e1]
      have hdoy2 : doyOf (doe + 1) = 0 := by
        rw [doyOf, hg2, hnext]; omega
      have hn1_eq : dateOf (ymdN (n + 1))
          = { year := ((yoe + 1 : Nat) : Int) + (era : Int) * 400,
              month := 3,
              day := 1 } := by
        simp only [ymdN, dateOf]
        rw [hdoe2, hera2, hg2, hdoy2]
        rfl
      rw [hn1_eq]
      simp only [Date.mk.injEq, and_true, true_and]
      push_cast
      omega
  · -- not the last day of the year-of-era
    have hdoe2 : (n + 1 + 719468) % 146097 = doe + 1 := by omega
    have hera2 : (n + 1 + 719468) / 146097 = era := by omega
    have hg2 : gYoe (doe + 1) = yoe :=
      gYoe_sandwich yoe (doe + 1) (by omega) (by omega) (by omega)
    have hdoy2 : doyOf (doe + 1) = doy + 1 := by
      rw [doyOf, hg2]; omega
    have hn1_eq : dateOf (ymdN (n + 1))
        = { year := if monthOfMp (mpOf (doy + 1)) ≤ 2
              then (yoe : Int) + (era : Int) * 400 + 1
              else (yoe : Int) + (era : Int) * 400,
            month := monthOfMp (mpOf (doy + 1)),
            day := dayOfMp (doy + 1) } := by
      simp only [ymdN, dateOf]
      rw [hdoe2, hera2, hg2, hdoy2]
    by_cases hmonth : doy + 1 < (153 * (mp + 1) + 2) / 5
    · -- same month: the day just increments
      have hmp2 : mpOf (doy + 1) = mp := mpOf_eq (doy + 1) mp m3 (by omega) hmonth
      have hD2 : dayOfMp (doy + 1) = dayOfMp doy + 1 := by
        unfold dayOfMp
        rw [hmp2, ← hmp]
        omega
      rw [hmp2, hD2] at hn1_eq
      have hcond : dayOfMp doy < daysInMonth
          (if monthOfMp mp ≤ 2 then (yoe : Int) + (era : Int) * 400 + 1
           else (yoe : Int) + (era : Int) * 400) (monthOfMp mp) := by
        by_cases hfeb : mp = 11
        · have hM2 : monthOfMp mp = 2 := mf3.mpr hfeb
          rw [if_pos (show monthOfMp mp ≤ 2 by omega), hM2,
            feb_len era yoe (by omega), hD, hfeb]
          omega
        · rw [monthLen_const mp (by omega) _, hD]
          omega
      rw [hn1_eq]
      simp only [nextDay]
      rw [if_pos hcond]
    · -- month rollover inside the year
      have hms : doy + 1 = (153 * (mp + 1) + 2) / 5 := by omega
      have hmp11 : mp < 11 := by omega
      have hmp2 : mpOf (doy + 1) = mp + 1 :=
        mpOf_eq (doy + 1) (mp + 1) (by omega) (by omega)
          (by have := monthStart_lt (mp + 1); omega)
      have hD2 : dayOfMp (doy + 1) = 1 := by
        unfold dayOfMp
        rw [hmp2]
        omega
      rw [hmp2, hD2] at hn1_eq
      obtain ⟨s1, s2, s3⟩ := month_step mp hmp11
      have hncond : ¬ dayOfMp doy < daysInMonth
          (if monthOfMp mp ≤ 2 then (yoe : Int) + (era : Int) * 400 + 1
           else (yoe : Int) + (era : Int) * 400) (monthOfMp mp) := by
        rw [monthLen_const mp hmp11 _, hD]
        omega
      rw [hn1_eq]
      simp only [nextDay]
      rw [if_neg hncond]
      by_cases hdec : monthOfMp mp = 12
      · have hm1 : monthOfMp (mp + 1) = 1 := s1 hdec
        rw [if_neg (by omega : ¬ monthOfMp mp < 12), hm1]
        simp only [Date.mk.injEq, and_true, true_and]
        rw [if_pos (by omega : (1 : Nat) ≤ 2),
          if_neg (by omega : ¬ monthOfMp mp ≤ 2)]
      · have hm12 : monthOfMp mp < 12 := by omega
        rw [if_pos hm12, s2 hm12]
        simp only [Date.mk.injEq, and_true, true_and]
        by_cases hc : monthOfMp mp ≤ 2
        · have hc1 : monthOfMp mp + 1 ≤ 2 := by omega
          rw [if_pos hc1, if_pos hc]
        · have hc1 : ¬ monthOfMp mp + 1 ≤ 2 := by omega
          rw [if_neg hc1, if_neg hc]

lemma dateOfYmd_eq_dateOf (n : Nat) : dateOfYmd n = dateOf (ymdN n) := by
  unfold dateOfYmd
  rw [days_to_ymd_eq]
  rfl

/-- The central refinement: the source's `days_to_ymd` computes exactly the
proleptic Gregorian civil date reached by advancing `n` days from
1970-01-01. -/
theorem ymd_eq_civil (n : Nat) : dateOfYmd n = civilFromDays n := by
  induction n with
  | zero => decide
  | succ k ih =>
    rw [dateOfYmd_eq_dateOf, ymdN_succ k, civilFromDays,
      Function.iterate_succ_apply', ← dateOfYmd_eq_dateOf, ih]
    rfl

/-- Dates reachable from the epoch: year at least 1970 and in-range month
and day fields. -/
def ValidDate (dt : Date) : Prop :=
  1970 ≤ dt.year ∧ 1 ≤ dt.month ∧ dt.month ≤ 12 ∧ 1 ≤ dt.day ∧ dt.day ≤ 31

lemma daysInMonth_le (y : Int) (m : Nat) : daysInMonth y m ≤ 31 := by
  unfold daysInMonth
  split_ifs <;> omega

lemma daysInMonth_pos (y : Int) (m : Nat) : 1 ≤ daysInMonth y m := by
  unfold daysInMonth
  split_ifs <;> omega

lemma valid_nextDay (dt : Date) (h : ValidDate dt) : ValidDate (nextDay dt) := by
  obtain ⟨y, m, d⟩ := dt
  have h31 := daysInMonth_le y m
  have h1 := daysInMonth_pos y m
  unfold ValidDate at h
  simp only at h
  unfold nextDay
  split_ifs with c1 c2 <;> unfold ValidDate <;> simp only at * <;>
    refine ⟨by omega, by omega, by omega, by omega, by omega⟩

lemma valid_civil (n : Nat) : ValidDate (civilFromDays n) := by
  induction n with
  | zero => exact ⟨by decide, by decide, by decide, by decide, by decide⟩
  | succ k ih =>
    rw [civilFromDays, Function.iterate_succ_apply']
    exact valid_nextDay _ ih

/-! ### Decimal formatting (the `format!` macro of `chrono_now_iso`) -/

/-- Decimal digits of `n`, most significant first (fuel-driven so the
kernel can evaluate it). -/
def natDecAux : Nat → Nat → List Char
  | 0, _ => []
  | fuel + 1, n =>
      if n < 10 then [Nat.digitChar n]
      else natDecAux fuel (n / 10) ++ [Nat.digitChar (n % 10)]

/-- Decimal rendering of a natural number. -/
def natDec (n : Nat) : String := String.mk (natDecAux (n + 1) n)

/-- Zero padding to width `w`, as Rust's `{:0w}` format spec. -/
def zfill (w : Nat) (s : String) : String :=
  String.mk (List.replicate (w - s.length) '0') ++ s

/-- Rust `format!("{:0w}", n)` for an unsigned value. -/
def fmtNat (w n : Nat) : String := zfill w (natDec n)

/-- Rust `format!("{:0w}", x)` for a signed value (the sign takes part of
the width). -/
def fmtInt (w : Nat) (x : Int) : String :=
  if x < 0 then "-" ++ zfill (w - 1) (natDec x.natAbs)
  else zfill w (natDec x.toNat)

/-- chrono_now_iso: format a duration since the Unix epoch (seconds and
sub-second nanoseconds, as `Duration::as_secs` / `subsec_millis`) the way
the source does: split into days / time-of-day, convert the days with
`days_to_ymd`, and print `{:04}-{:02}-{:02}T{:02}:{:02}:{:02}.{:03}Z`. -/
def chrono_now_iso (secs subsecNanos : Nat) : String :=
  let millis := subsecNanos / 1000000
  let days := secs / 86400
  let day_secs := secs % 86400
  let hours := day_secs / 3600
  let minutes := day_secs % 3600 / 60
  let seconds := day_secs % 60
  fmtInt 4 (days_to_ymd days).1 ++ "-" ++ fmtNat 2 (days_to_ymd days).2.1
    ++ "-" ++ fmtNat 2 (days_to_ymd days).2.2 ++ "T" ++ fmtNat 2 hours
    ++ ":" ++ fmtNat 2 minutes ++ ":" ++ fmtNat 2 seconds ++ "."
    ++ fmtNat 3 millis ++ "Z"

lemma natDecAux_len (k : Nat) :
    ∀ fuel n, n < fuel → n < 10 ^ k → 0 < k → (natDecAux fuel n).length ≤ k := by
  induction k with
  | zero => intro fuel n _ _ hk; omega
  | succ k ih =>
    intro fuel n hf hn _
    cases fuel with
    | zero => omega
    | succ f =>
      unfold natDecAux
      by_cases h10 : n < 10
      · rw [if_pos h10]
        simp
      · rw [if_neg h10]
        simp only [List.length_append, List.length_singleton]
        have hp : 10 ^ (k + 1) = 10 ^ k * 10 := pow_succ 10 k
        have hk1 : 0 < k := by
          rcases Nat.eq_zero_or_pos k with hk0 | hk0
          · subst hk0
            norm_num at hn
            omega
          · exact hk0
        have hrec : (natDecAux f (n / 10)).length ≤ k :=
          ih f (n / 10) (by omega) (by omega) hk1
        omega

lemma natDec_len (k n : Nat) (hn : n < 10 ^ k) (hk : 0 < k) :
    (natDec n).length ≤ k :=
  natDecAux_len k (n + 1) n (Nat.lt_succ_self n) hn hk

lemma zfill_len (w : Nat) (s : String) (h : s.length ≤ w) :
    (zfill w s).length = w := by
  unfold zfill
  rw [String.length_append]
  have : (String.mk (List.replicate (w - s.length) '0')).length
      = w - s.length := by
    show (List.replicate (w - s.length) '0').length = w - s.length
    exact List.length_replicate ..
  omega

lemma fmtNat_len (w n : Nat) (hn : n < 10 ^ w) (hw : 0 < w) :
    (fmtNat w n).length = w :=
  zfill_len w (natDec n) (natDec_len w n hn hw)

lemma fmtInt_len (w : Nat) (x : Int) (h0 : 0 ≤ x) (hx : x.toNat < 10 ^ w)
    (hw : 0 < w) : (fmtInt w x).length = w := by
  unfold fmtInt
  rw [if_neg (by omega)]
  exact zfill_len w _ (natDec_len w x.toNat hx hw)

lemma ymd_year (n : Nat) : (days_to_ymd n).1 = (civilFromDays n).year :=
  congrArg Date.year (ymd_eq_civil n)

lemma ymd_month (n : Nat) : (days_to_ymd n).2.1 = (civilFromDays n).month :=
  congrArg Date.month (ymd_eq_civil n)

lemma ymd_day (n : Nat) : (days_to_ymd n).2.2 = (civilFromDays n).day :=
  congrArg Date.day (ymd_eq_civil n)

/-- C8 (amended): for every non-negative duration since the Unix epoch the
timestamp utility prints `Y-MM-DDTHH:MM:SS.mmmZ` where the year/month/day
are exactly the proleptic Gregorian civil date for that many whole days
since 1970-01-01 and the time-of-day fields are the remaining seconds of
the day (zero-padded, millisecond precision); the output has the
fixed-width 24-character `YYYY-MM-DDTHH:MM:SS.mmmZ` form whenever the
civil year is at most 9999 — beyond that the year field grows wider. -/
theorem timestamp_C8 (secs nanos : Nat) (hn : nanos < 1000000000) :
    chrono_now_iso secs nanos
      = fmtInt 4 (civilFromDays (secs / 86400)).year ++ "-"
        ++ fmtNat 2 (civilFromDays (secs / 86400)).month ++ "-"
        ++ fmtNat 2 (civilFromDays (secs / 86400)).day ++ "T"
        ++ fmtNat 2 (secs % 86400 / 3600) ++ ":"
        ++ fmtNat 2 (secs % 86400 % 3600 / 60) ++ ":"
        ++ fmtNat 2 (secs % 86400 % 60) ++ "."
        ++ fmtNat 3 (nanos / 1000000) ++ "Z"
    ∧ ((civilFromDays (secs / 86400)).year ≤ 9999
        → (chrono_now_iso secs nanos).length = 24) := by
  have heq : chrono_now_iso secs nanos
      = fmtInt 4 (civilFromDays (secs / 86400)).year ++ "-"
        ++ fmtNat 2 (civilFromDays (secs / 86400)).month ++ "-"
        ++ fmtNat 2 (civilFromDays (secs / 86400)).day ++ "T"
        ++ fmtNat 2 (secs % 86400 / 3600) ++ ":"
        ++ fmtNat 2 (secs % 86400 % 3600 / 60) ++ ":"
        ++ fmtNat 2 (secs % 86400 % 60) ++ "."
        ++ fmtNat 3 (nanos / 1000000) ++ "Z" := by
    simp only [chrono_now_iso]
    rw [ymd_year, ymd_month, ymd_day]
  refine ⟨heq, ?_⟩
  intro hyr
  obtain ⟨v1, v2, v3, v4, v5⟩ := valid_civil (secs / 86400)
  have p4 : (10 : Nat) ^ 4 = 10000 := by norm_num
  have p3 : (10 : Nat) ^ 3 = 1000 := by norm_num
  have p2 : (10 : Nat) ^ 2 = 100 := by norm_num
  have l1 : (fmtInt 4 (civilFromDays (secs / 86400)).year).length = 4 :=
    fmtInt_len 4 _ (by omega) (by omega) (by omega)
  have l2 : (fmtNat 2 (civilFromDays (secs / 86400)).month).length = 2 :=
    fmtNat_len 2 _ (by omega) (by omega)
  have l3 : (fmtNat 2 (civilFromDays (secs / 86400)).day).length = 2 :=
    fmtNat_len 2 _ (by omega) (by omega)
  have l4 : (fmtNat 2 (secs % 86400 / 3600)).length = 2 :=
    fmtNat_len 2 _ (by omega) (by omega)
  have l5 : (fmtNat 2 (secs % 86400 % 3600 / 60)).length = 2 :=
    fmtNat_len 2 _ (by omega) (by omega)
  have l6 : (fmtNat 2 (secs % 86400 % 60)).length = 2 :=
    fmtNat_len 2 _ (by omega) (by omega)
  have l7 : (fmtNat 3 (nanos / 1000000)).length = 3 :=
    fmtNat_len 3 _ (by omega) (by omega)
  rw [heq]
  simp only [String.length_append, l1, l2, l3, l4, l5, l6, l7]
  rfl

theorem timestamp_C8_witness :
    (7000000 : Nat) < 1000000000
    ∧ (chrono_now_iso 86399 7000000
        = fmtInt 4 (civilFromDays (86399 / 86400)).year ++ "-"
          ++ fmtNat 2 (civilFromDays (86399 / 86400)).month ++ "-"
          ++ fmtNat 2 (civilFromDays (86399 / 86400)).day ++ "T"
          ++ fmtNat 2 (86399 % 86400 / 3600) ++ ":"
          ++ fmtNat 2 (86399 % 86400 % 3600 / 60) ++ ":"
          ++ fmtNat 2 (86399 % 86400 % 60) ++ "."
          ++ fmtNat 3 (7000000 / 1000000) ++ "Z"
      ∧ ((civilFromDays (86399 / 86400)).year ≤ 9999
          → (chrono_now_iso 86399 7000000).length = 24)) :=
  ⟨by decide, timestamp_C8 86399 7000000 (by decide)⟩

/-- C8 counterexample: for the duration of 253402300800 s (which is
10000-01-01) the output is 25 characters, with a five-digit year — not the
fixed-width `YYYY-MM-DDTHH:MM:SS.mmmZ` format the claim asserts for every
non-negative duration. -/
theorem timestamp_C8_counterexample :
    chrono_now_iso 253402300800 0 = "10000-01-01T00:00:00.000Z"
    ∧ (chrono_now_iso 253402300800 0).length = 25 := by
  constructor
  · rfl
  · rfl
